import Mathlib

/-!
Verification of the incremental-sync engine of the conduit BigQuery source
connector (package `googlesource`, current revision of `googlesource.go`,
together with the `Source` lifecycle in the connector file defining `Open`).

The Go code is shallowly embedded: pure helpers (`calcOffset`, `getType`,
`checkInitialPos`, `getTables`, query construction in `getRowIterator`,
`writePosition`, `fetchPos`) become Lean functions on `String`/`Nat`/`Int`;
the stateful paging loop of `ReadGoogleRow` becomes an explicit state-passing
function (`processColumn` / `processRow` / `processPage` / `runCycle`) with
fuel for the outer loop, recording a trace of cursor-store writes and emitted
records.  Behaviour of external libraries reached by the code
(`encoding/json` for string values, `strconv`, `gob`, the BigQuery row
iterator, `time.Parse`) is modelled: `strconv.Itoa`/`Atoi` and JSON
marshalling of a `string` are implemented concretely below; the warehouse
(query execution + row iterator), `gob` encoding and `time` formatting are
parameters of the environment, since they are I/O or byte-level encodings
whose details the claims do not depend on.
-/

/-! ## Go standard-library models: `strconv.Itoa`, `strconv.Atoi` -/

/-- Little-endian base-10 digits, structurally recursive on a fuel bound
(`fuel ≥ n` suffices), so that the kernel can evaluate it. -/
def natDigitsRev : Nat → Nat → List Nat
  | 0, _ => []
  | fuel + 1, n => if n = 0 then [] else (n % 10) :: natDigitsRev fuel (n / 10)

/-- Decimal rendering of a natural number, as produced by Go's
`strconv.Itoa` / `fmt.Sprintf "%d"` for non-negative values. -/
def goItoaNat (n : Nat) : String :=
  if n = 0 then "0" else String.mk (((natDigitsRev n n).reverse).map Nat.digitChar)

/-- Decimal rendering of an integer, as produced by Go's
`fmt.Sprintf "%d"` on an `int`. -/
def goItoa (i : Int) : String :=
  if i < 0 then "-" ++ goItoaNat i.natAbs else goItoaNat i.toNat

/-- Fold a big-endian list of decimal digit characters into a number;
`none` if any character is not an ASCII digit.  (Accumulator form of the
digit scan inside Go's `strconv.Atoi`.) -/
def digitsToNatAux (acc : Option Nat) (cs : List Char) : Option Nat :=
  cs.foldl
    (fun a c => a.bind (fun n => if c.isDigit then some (10 * n + (c.toNat - 48)) else none))
    acc

/-- Parse a non-empty all-digit string fragment. -/
def digitsToNat (cs : List Char) : Option Nat :=
  match cs with
  | [] => none
  | _ :: _ => digitsToNatAux (some 0) cs

/-- Go's `strconv.Atoi` on an exploded string: optional sign followed by at
least one decimal digit; anything else is an error (`none`).  On a 64-bit
platform `Atoi` is `ParseInt(s, 10, 64)`: values outside
[-9223372036854775808, 9223372036854775807] yield `ErrRange`, also
modelled as `none` (the caller, `calcOffset`, only tests `err != nil` and
discards the clamped value Go returns alongside the error). -/
def goAtoiAux : List Char → Option Int
  | [] => none
  | c :: cs =>
    if c = Char.ofNat 43 then
      (digitsToNat cs).bind
        (fun n => if n ≤ 9223372036854775807 then some (Int.ofNat n) else none)
    else if c = Char.ofNat 45 then
      (digitsToNat cs).bind
        (fun n => if n ≤ 9223372036854775808 then some (-(Int.ofNat n)) else none)
    else
      (digitsToNat (c :: cs)).bind
        (fun n => if n ≤ 9223372036854775807 then some (Int.ofNat n) else none)

/-- Go's `strconv.Atoi`. -/
def goAtoi (s : String) : Option Int := goAtoiAux s.data

/-- Two's-complement wraparound of Go's 64-bit `int`: overflowing
arithmetic such as the `offsetInt++` in `calcOffset` wraps
9223372036854775807 to -9223372036854775808. -/
def int64Wrap (n : Int) : Int :=
  (n + 9223372036854775808) % 18446744073709551616 - 9223372036854775808

/-- Lowercase hexadecimal digit, as in `encoding/json`'s `hex` table. -/
def hexDig (n : Nat) : Char :=
  if n < 10 then Char.ofNat (48 + n) else Char.ofNat (87 + n)

/-- Value of one hexadecimal digit character (Go `getu4` accepts both
cases); `none` if the character is not a hex digit. -/
def hexVal (c : Char) : Option Nat :=
  if 48 ≤ c.toNat ∧ c.toNat ≤ 57 then some (c.toNat - 48)
  else if 97 ≤ c.toNat ∧ c.toNat ≤ 102 then some (c.toNat - 87)
  else if 65 ≤ c.toNat ∧ c.toNat ≤ 70 then some (c.toNat - 55)
  else none

/-- How `encoding/json`'s `appendString` (with HTML escaping) renders one
character of a string value. -/
def jsonEscapeChar (c : Char) : List Char :=
  if c = Char.ofNat 34 then [Char.ofNat 92, Char.ofNat 34]
  else if c = Char.ofNat 92 then [Char.ofNat 92, Char.ofNat 92]
  else if c = Char.ofNat 10 then [Char.ofNat 92, Char.ofNat 110]
  else if c = Char.ofNat 13 then [Char.ofNat 92, Char.ofNat 114]
  else if c = Char.ofNat 9 then [Char.ofNat 92, Char.ofNat 116]
  else if c.toNat < 32 ∨ c = Char.ofNat 60 ∨ c = Char.ofNat 62 ∨ c = Char.ofNat 38 then
    [Char.ofNat 92, Char.ofNat 117, Char.ofNat 48, Char.ofNat 48,
      hexDig (c.toNat / 16), hexDig (c.toNat % 16)]
  else if c.toNat = 8232 ∨ c.toNat = 8233 then
    [Char.ofNat 92, Char.ofNat 117, Char.ofNat 50, Char.ofNat 48, Char.ofNat 50,
      hexDig (c.toNat % 16)]
  else [c]

/-- Go `json.Marshal` of a `string` value: a double-quoted, escaped copy. -/
def goJsonMarshalString (s : String) : List Char :=
  Char.ofNat 34 :: (s.data.map jsonEscapeChar).flatten ++ [Char.ofNat 34]

/-- The Unicode replacement character U+FFFD, Go's result for invalid
surrogate escapes. -/
def replChar : Char := Char.ofNat 65533

/-- The single-character escapes accepted by Go's `unquote`. -/
def jsonSimpleEsc (e : Char) : Option Char :=
  if e = Char.ofNat 34 then some (Char.ofNat 34)
  else if e = Char.ofNat 92 then some (Char.ofNat 92)
  else if e = Char.ofNat 47 then some (Char.ofNat 47)
  else if e = Char.ofNat 98 then some (Char.ofNat 8)
  else if e = Char.ofNat 102 then some (Char.ofNat 12)
  else if e = Char.ofNat 110 then some (Char.ofNat 10)
  else if e = Char.ofNat 114 then some (Char.ofNat 13)
  else if e = Char.ofNat 116 then some (Char.ofNat 9)
  else none

/-- Continuation after a high-surrogate escape: Go's `unquote` looks for a
following low-surrogate escape; a proper pair combines into one character,
anything else yields U+FFFD and re-scans from the same place. Returns the
decoded character and the remaining input. -/
def parseSurrogateTail (n : Nat) (cs3 : List Char) : Char × List Char :=
  match cs3 with
  | s1 :: u1 :: a2 :: b2 :: c4 :: d2 :: cs4 =>
    if s1 = Char.ofNat 92 ∧ u1 = Char.ofNat 117 then
      match hexVal a2, hexVal b2, hexVal c4, hexVal d2 with
      | some x2, some y2, some z2, some w2 =>
        if 56320 ≤ 4096 * x2 + 256 * y2 + 16 * z2 + w2
            ∧ 4096 * x2 + 256 * y2 + 16 * z2 + w2 < 57344 then
          (Char.ofNat (65536 + (n - 55296) * 1024
            + (4096 * x2 + 256 * y2 + 16 * z2 + w2 - 56320)), cs4)
        else (replChar, cs3)
      | _, _, _, _ => (replChar, cs3)
    else (replChar, cs3)
  | _ => (replChar, cs3)

theorem parseSurrogateTail_len (n : Nat) (cs3 : List Char) :
    ((parseSurrogateTail n cs3).2).length ≤ cs3.length := by
  unfold parseSurrogateTail
  repeat' split
  all_goals (try simp [List.length_cons])
  all_goals omega

/-- Body of a JSON string after the opening quote: returns the decoded
characters and the input left after the closing quote.  Mirrors Go's
`unquote`: raw control characters are rejected, surrogate pairs combine,
and a lone surrogate decodes to U+FFFD.  The extra `Nat` is fuel, spent
once per decoded character; since every decoded character consumes at
least one input character, fuel equal to the input length (as used by
`parseJsonBody` below) never runs out before the input does, so this is
only a structural-recursion device, not a semantic change. -/
def parseJsonBodyF : Nat → List Char → Option (List Char × List Char)
  | 0, _ => none
  | _ + 1, [] => none
  | fuel + 1, c :: cs =>
    if c = Char.ofNat 34 then some ([], cs)
    else if c = Char.ofNat 92 then
      match cs with
      | [] => none
      | e :: cs2 =>
        if e = Char.ofNat 117 then
          match cs2 with
          | a :: b :: c3 :: d :: cs3 =>
            match hexVal a, hexVal b, hexVal c3, hexVal d with
            | some x, some y, some z, some w =>
              let n := 4096 * x + 256 * y + 16 * z + w
              if 55296 ≤ n ∧ n < 56320 then
                let pr := parseSurrogateTail n cs3
                (parseJsonBodyF fuel pr.2).map (fun p => (pr.1 :: p.1, p.2))
              else if 56320 ≤ n ∧ n < 57344 then
                (parseJsonBodyF fuel cs3).map (fun p => (replChar :: p.1, p.2))
              else (parseJsonBodyF fuel cs3).map (fun p => (Char.ofNat n :: p.1, p.2))
            | _, _, _, _ => none
          | _ => none
        else
          match jsonSimpleEsc e with
          | some ec => (parseJsonBodyF fuel cs2).map (fun p => (ec :: p.1, p.2))
          | none => none
    else if c.toNat < 32 then none
    else (parseJsonBodyF fuel cs).map (fun p => (c :: p.1, p.2))

/-- JSON string body parser with its canonical (always sufficient) fuel. -/
def parseJsonBody (l : List Char) : Option (List Char × List Char) :=
  parseJsonBodyF l.length l

/-- Go `json.Unmarshal` of bytes into a `*string`: the payload must be
exactly one JSON string. -/
def goJsonUnmarshalString (cs : List Char) : Option String :=
  match cs with
  | [] => none
  | c :: rest =>
    if c = Char.ofNat 34 then
      match parseJsonBody rest with
      | some (decoded, []) => some (String.mk decoded)
      | _ => none
    else none

theorem hexVal_hexDig (n : Nat) (h : n < 16) : hexVal (hexDig n) = some n := by
  interval_cases n <;> decide

theorem parseJsonBodyF_quote (fuel : Nat) (R : List Char) :
    parseJsonBodyF (fuel + 1) (Char.ofNat 34 :: R) = some ([], R) := by
  simp [parseJsonBodyF]

theorem parseJsonBodyF_plain (fuel : Nat) (c : Char) (R : List Char)
    (h1 : ¬ c = Char.ofNat 34) (h2 : ¬ c = Char.ofNat 92) (h3 : ¬ c.toNat < 32) :
    parseJsonBodyF (fuel + 1) (c :: R)
      = (parseJsonBodyF fuel R).map (fun p => (c :: p.1, p.2)) := by
  simp only [parseJsonBodyF, if_neg h1, if_neg h2, if_neg h3]

theorem parseJsonBodyF_simpleEsc (fuel : Nat) (e ec : Char) (R : List Char)
    (hu : ¬ e = Char.ofNat 117) (he : jsonSimpleEsc e = some ec) :
    parseJsonBodyF (fuel + 1) (Char.ofNat 92 :: e :: R)
      = (parseJsonBodyF fuel R).map (fun p => (ec :: p.1, p.2)) := by
  have e1 : (Char.ofNat 92 = Char.ofNat 34) = False := eq_false (by decide)
  have e2 : (Char.ofNat 92 = Char.ofNat 92) = True := eq_true rfl
  simp only [parseJsonBodyF, e1, e2, eq_false hu, if_false, if_true, he]

theorem parseJsonBodyF_u4 (fuel : Nat) (a b c3 d : Char) (x y z w : Nat) (R : List Char)
    (ha : hexVal a = some x) (hb : hexVal b = some y)
    (hc : hexVal c3 = some z) (hd : hexVal d = some w)
    (hn : 4096 * x + 256 * y + 16 * z + w < 55296) :
    parseJsonBodyF (fuel + 1) (Char.ofNat 92 :: Char.ofNat 117 :: a :: b :: c3 :: d :: R)
      = (parseJsonBodyF fuel R).map
          (fun p => (Char.ofNat (4096 * x + 256 * y + 16 * z + w) :: p.1, p.2)) := by
  have e1 : (Char.ofNat 92 = Char.ofNat 34) = False := eq_false (by decide)
  have e2 : (Char.ofNat 92 = Char.ofNat 92) = True := eq_true rfl
  have e3 : (Char.ofNat 117 = Char.ofNat 117) = True := eq_true rfl
  simp only [parseJsonBodyF, e1, e2, e3, if_false, if_true, ha, hb, hc, hd]
  rw [if_neg (by omega), if_neg (by omega)]

theorem parseJsonBodyF_escapeChar (fuel : Nat) (c : Char) (R : List Char) :
    parseJsonBodyF (fuel + 1) (jsonEscapeChar c ++ R)
      = (parseJsonBodyF fuel R).map (fun p => (c :: p.1, p.2)) := by
  unfold jsonEscapeChar
  by_cases h1 : c = Char.ofNat 34
  · subst h1
    rw [if_pos rfl]
    exact parseJsonBodyF_simpleEsc fuel _ _ R (by decide) (by decide)
  · rw [if_neg h1]
    by_cases h2 : c = Char.ofNat 92
    · subst h2
      rw [if_pos rfl]
      exact parseJsonBodyF_simpleEsc fuel _ _ R (by decide) (by decide)
    · rw [if_neg h2]
      by_cases h3 : c = Char.ofNat 10
      · subst h3
        rw [if_pos rfl]
        exact parseJsonBodyF_simpleEsc fuel _ _ R (by decide) (by decide)
      · rw [if_neg h3]
        by_cases h4 : c = Char.ofNat 13
        · subst h4
          rw [if_pos rfl]
          exact parseJsonBodyF_simpleEsc fuel _ _ R (by decide) (by decide)
        · rw [if_neg h4]
          by_cases h5 : c = Char.ofNat 9
          · subst h5
            rw [if_pos rfl]
            exact parseJsonBodyF_simpleEsc fuel _ _ R (by decide) (by decide)
          · rw [if_neg h5]
            by_cases h6 : c.toNat < 32 ∨ c = Char.ofNat 60 ∨ c = Char.ofNat 62
                ∨ c = Char.ofNat 38
            · rw [if_pos h6]
              have hb62 : c.toNat ≤ 62 := by
                rcases h6 with h | h | h | h
                · omega
                · subst h; decide
                · subst h; decide
                · subst h; decide
              have ha : hexVal (Char.ofNat 48) = some 0 := by decide
              have hz : hexVal (hexDig (c.toNat / 16)) = some (c.toNat / 16) :=
                hexVal_hexDig _ (by omega)
              have hw : hexVal (hexDig (c.toNat % 16)) = some (c.toNat % 16) :=
                hexVal_hexDig _ (by omega)
              rw [show ([Char.ofNat 92, Char.ofNat 117, Char.ofNat 48, Char.ofNat 48,
                    hexDig (c.toNat / 16), hexDig (c.toNat % 16)] ++ R)
                  = Char.ofNat 92 :: Char.ofNat 117 :: Char.ofNat 48 :: Char.ofNat 48 ::
                    hexDig (c.toNat / 16) :: hexDig (c.toNat % 16) :: R from rfl]
              rw [parseJsonBodyF_u4 fuel _ _ _ _ 0 0 (c.toNat / 16) (c.toNat % 16) R
                ha ha hz hw (by omega)]
              have hsum : 4096 * 0 + 256 * 0 + 16 * (c.toNat / 16) + c.toNat % 16
                  = c.toNat := by omega
              rw [hsum, Char.ofNat_toNat]
            · rw [if_neg h6]
              by_cases h7 : c.toNat = 8232 ∨ c.toNat = 8233
              · rw [if_pos h7]
                have ha2 : hexVal (Char.ofNat 50) = some 2 := by decide
                have ha0 : hexVal (Char.ofNat 48) = some 0 := by decide
                have hw : hexVal (hexDig (c.toNat % 16)) = some (c.toNat % 16) :=
                  hexVal_hexDig _ (by omega)
                rw [show ([Char.ofNat 92, Char.ofNat 117, Char.ofNat 50, Char.ofNat 48,
                      Char.ofNat 50, hexDig (c.toNat % 16)] ++ R)
                    = Char.ofNat 92 :: Char.ofNat 117 :: Char.ofNat 50 :: Char.ofNat 48 ::
                      Char.ofNat 50 :: hexDig (c.toNat % 16) :: R from rfl]
                rw [parseJsonBodyF_u4 fuel _ _ _ _ 2 0 2 (c.toNat % 16) R
                  ha2 ha0 ha2 hw (by omega)]
                have hsum : 4096 * 2 + 256 * 0 + 16 * 2 + c.toNat % 16 = c.toNat := by
                  rcases h7 with h | h <;> omega
                rw [hsum, Char.ofNat_toNat]
              · rw [if_neg h7]
                rw [show ([c] ++ R) = c :: R from rfl]
                exact parseJsonBodyF_plain fuel c R h1 h2 (by omega)

theorem length_jsonEscapeChar_pos (c : Char) : 1 ≤ (jsonEscapeChar c).length := by
  unfold jsonEscapeChar
  repeat' split
  all_goals simp

theorem parseJsonBodyF_marshalBody (s : List Char) :
    ∀ fuel, s.length < fuel →
      parseJsonBodyF fuel ((s.map jsonEscapeChar).flatten ++ [Char.ofNat 34]) = some (s, []) := by
  induction s with
  | nil =>
    intro fuel hf
    cases fuel with
    | zero => exact absurd hf (Nat.not_lt_zero _)
    | succ f =>
      rw [show ((([] : List Char).map jsonEscapeChar).flatten ++ [Char.ofNat 34])
          = Char.ofNat 34 :: ([] : List Char) from rfl]
      exact parseJsonBodyF_quote f []
  | cons c s ih =>
    intro fuel hf
    cases fuel with
    | zero => exact absurd hf (Nat.not_lt_zero _)
    | succ f =>
      rw [List.map_cons, List.flatten_cons, List.append_assoc]
      rw [parseJsonBodyF_escapeChar f c _]
      rw [ih f (by simp at hf; omega)]
      rfl

theorem goJsonUnmarshalString_marshal (s : String) :
    goJsonUnmarshalString (goJsonMarshalString s) = some s := by
  have hlen : s.data.length
      < ((s.data.map jsonEscapeChar).flatten ++ [Char.ofNat 34]).length := by
    rw [List.length_append]
    have hbody : s.data.length ≤ ((s.data.map jsonEscapeChar).flatten).length := by
      induction s.data with
      | nil => simp
      | cons c cs ih =>
        rw [List.map_cons, List.flatten_cons, List.length_append, List.length_cons]
        have := length_jsonEscapeChar_pos c
        omega
    simp only [List.length_cons, List.length_nil]
    omega
  show goJsonUnmarshalString
      (Char.ofNat 34 :: ((s.data.map jsonEscapeChar).flatten ++ [Char.ofNat 34])) = some s
  simp only [goJsonUnmarshalString, if_pos rfl]
  unfold parseJsonBody
  rw [parseJsonBodyF_marshalBody s.data _ hlen]
  cases s
  rfl

/-! ## Data model of `googlesource.go`

`bigquery.FieldType` is modelled by an inductive of the constants the code
distinguishes (`getType` switches on Integer/Float/Numeric/Time and a
default; the row loop checks Timestamp), plus representatives of the
remaining types.  A row value (`bigquery.Value`) is carried as the string
`fmt.Sprint` renders for it, which is exactly how the code consumes values
for offsets and keys. -/

inductive FieldType where
  | integer
  | float
  | numeric
  | time
  | timestamp
  | date
  | dateTime
  | stringType
  | boolean
  | geography
deriving Repr, DecidableEq

/-- The connector's `SourceConfig.Config` fields used by `googlesource.go`. -/
structure Config where
  serviceAccount : String
  projectID : String
  datasetID : String
  tableIDs : String
  pollingTime : String
  location : String
  incrementColNames : String
  primaryKeyColNames : String
deriving Repr, DecidableEq

/-- The single-quote character used by `fmt.Sprintf` quoting in `getType`. -/
def sglQuote : String := String.mk [Char.ofNat 39]

/-- Model of `getType` from `googlesource.go`: renders a cursor value for embedding
into a query, quoting all but the numeric field types. -/
def getType (fieldType : FieldType) (offset : String) : String :=
  match fieldType with
  | FieldType.integer => offset
  | FieldType.float => offset
  | FieldType.numeric => offset
  | FieldType.time => sglQuote ++ offset ++ sglQuote
  | _ => sglQuote ++ offset ++ sglQuote

/-- Model of `calcOffset` from `googlesource.go`.  Returns the value Go assigns back
to `offset` together with an error flag (`true` when `strconv.Atoi`
failed); on `firstSync` the offset is reset to "0" before incrementing.
The `offsetInt++` is 64-bit `int` arithmetic: Go signed integers wrap on
overflow, so the increment is taken through `int64Wrap`. -/
def calcOffset (firstSync : Bool) (offset : String) : String × Bool :=
  let offset := if firstSync then "0" else offset
  match goAtoi offset with
  | none => (offset, true)
  | some n => (goItoa (int64Wrap (n + 1)), false)

/-- The query string built by `getRowIterator` (the pure part of that
function; running the job is the environment's `fetch`).  `counterLimit`
is the package constant `googlebigquery.CounterLimit`. -/
def getRowIteratorQuery (cfg : Config) (counterLimit : Nat) (offset : String)
    (tableID : String) (firstSync : Bool) : String :=
  if 0 < cfg.incrementColNames.length then
    let columnName := cfg.incrementColNames
    if firstSync then
      "SELECT * FROM `" ++ cfg.projectID ++ "." ++ cfg.datasetID ++ "." ++ tableID ++ "` "
        ++ " ORDER BY " ++ columnName ++ " LIMIT " ++ goItoaNat counterLimit
    else
      "SELECT * FROM `" ++ cfg.projectID ++ "." ++ cfg.datasetID ++ "." ++ tableID
        ++ "` WHERE " ++ columnName ++ " > " ++ offset ++ " ORDER BY " ++ columnName
        ++ " LIMIT " ++ goItoaNat counterLimit
  else
    let offset := if offset.length = 0 then "0" else offset
    "SELECT * FROM `" ++ cfg.projectID ++ "." ++ cfg.datasetID ++ "." ++ tableID ++ "` "
      ++ " LIMIT " ++ goItoaNat counterLimit ++ " OFFSET " ++ offset

/-- Model of `writePosition` from `googlesource.go`: stores the offset into
`s.position` and marshals that stored value.  `json.Marshal` of a `string`
cannot fail, so the result is the new stored position plus the bytes. -/
def writePosition (offset : String) : String × List Char :=
  (offset, goJsonMarshalString offset)

/-- Model of `fetchPos` from `googlesource.go`: `s.position` is reset to the empty
string, then `json.Unmarshal` overwrites it on success; on error the reset
value is kept (the run degrades to a fresh start). -/
def fetchPos (pos : List Char) : String :=
  match goJsonUnmarshalString pos with
  | some v => v
  | none => ""

/-- Result of `getTables` from `googlesource.go`.  When
`s.sourceConfig.Config.TableIDs` is blank the source logs with
`err.Error()` while the named return `err` is still nil, which is a nil
pointer dereference: the goroutine panics before constructing the intended
`"table ID blank"` error. -/
inductive GetTablesResult where
  | ok (table : String)
  | panicNilDeref
deriving Repr, DecidableEq

/-- Model of `getTables` from `googlesource.go`. -/
def getTables (cfg : Config) : GetTablesResult :=
  if cfg.tableIDs = "" then GetTablesResult.panicNilDeref
  else GetTablesResult.ok cfg.tableIDs

/-- Model of `strings.Contains`: `listHasPre p s` decides whether `p` starts `s`. -/
def listHasPre : List Char → List Char → Bool
  | [], _ => true
  | _ :: _, [] => false
  | a :: as, b :: bs => a == b && listHasPre as bs

/-- Substring occurrence check over exploded strings. -/
def listHasSub (n : List Char) : List Char → Bool
  | [] => listHasPre n []
  | c :: hs => listHasPre n (c :: hs) || listHasSub n hs

/-- Go's `strings.Contains s sub`. -/
def goContains (s sub : String) : Bool := listHasSub sub.data s.data

/-- One emitted `sdk.Record`: payload (column name to rendered value, in
column order), `sdk.RawData` key bytes (always set by the code), and the
position token bytes. -/
structure Rec where
  payload : List (String × String)
  key : Option (List Nat)
  position : List Char
deriving Repr, DecidableEq

/-- State threaded through `ReadGoogleRow`: the loop-local `offset` and
`firstSync`, the cursor store `s.position`, the capacity of `s.records`
(fixed at `Open`), and observation traces: every value stored to
`s.position`, every row consumed, every record sent to `responseCh`. -/
structure RState where
  offset : String
  firstSync : Bool
  position : String
  recordsCap : Nat
  writes : List String
  consumed : List (List String)
  emitted : List Rec
deriving Repr, DecidableEq

/-- Environment of one table read: the page-size constant
`googlebigquery.CounterLimit` (defined in the connector's config package,
outside this repository slice, hence a parameter), the parsed source
config, the table schema as `it.Schema` reports it, and the modelled
externals: `fetch offset firstSync` is `getRowIterator` (query run plus
full drain of the row iterator, returning the page or the job error
message), `formatTimestamp` is the `time.Parse`/`Format` normalisation
applied to Timestamp columns, `marshalPosition` is the `json.Marshal` call
inside `writePosition` (concretely `goJsonMarshalString`, but kept
parametric so the code's marshal-error branch is representable), and
`gobEncode` is the gob encoding of the key string (total: encoding a
`string` cannot fail). -/
structure Env where
  counterLimit : Nat
  cfg : Config
  schema : List (String × FieldType)
  fetch : String → Bool → Except String (List (List String))
  formatTimestamp : String → Option String
  marshalPosition : String → Option (List Char)
  gobEncode : String → List Nat

/-- One iteration of the `for i, r := range row` body in `ReadGoogleRow`:
Timestamp normalisation (an error aborts the whole read), `data[name] = r`,
then the offset update (user increment column, or `calcOffset`; on a
`calcOffset` error the code logs and `continue`s, skipping this column's
key check), then the primary-key check. -/
def processColumn (env : Env) (firstSync udO udK : Bool)
    (acc : List (String × String) × String × String)
    (cell : String × String × FieldType) :
    Except Unit (List (String × String) × String × String) :=
  match acc, cell with
  | (data, key, offset), (r0, name, ftype) =>
    match (if ftype = FieldType.timestamp then env.formatTimestamp r0 else some r0) with
    | none => Except.error ()
    | some r =>
      let data := data ++ [(name, r)]
      if udO then
        let offset := if name = env.cfg.incrementColNames then getType ftype r else offset
        let key := if udK then (if name = env.cfg.primaryKeyColNames then r else key) else key
        Except.ok (data, key, offset)
      else
        let pr := calcOffset firstSync offset
        if pr.2 then
          Except.ok (data, key, pr.1)
        else
          let key := if udK then (if name = env.cfg.primaryKeyColNames then r else key) else key
          Except.ok (data, key, pr.1)

/-- One row of the inner iterator loop: run the column loop, gob-encode the
key, bump the page counter, clear `firstSync`, store the offset into
`s.position` (this happens inside `writePosition` before marshalling), and
emit the record unless marshalling the position failed (in which case the
code logs and `continue`s: the row is consumed but not emitted). -/
def processRow (env : Env) (udO udK : Bool) (st : RState) (counter : Nat)
    (row : List String) : Except Unit (RState × Nat) :=
  match (row.zip env.schema).foldlM
      (fun acc cell => processColumn env st.firstSync udO udK acc cell)
      (([] : List (String × String)), "", st.offset) with
  | Except.error e => Except.error e
  | Except.ok (data, key, offset) =>
    let byteKey := env.gobEncode key
    let counter := counter + 1
    match env.marshalPosition offset with
    | none =>
      Except.ok (⟨offset, false, offset, st.recordsCap, st.writes ++ [offset],
        st.consumed ++ [row], st.emitted⟩, counter)
    | some recPosition =>
      Except.ok (⟨offset, false, offset, st.recordsCap, st.writes ++ [offset],
        st.consumed ++ [row],
        st.emitted ++ [⟨data, some byteKey, recPosition⟩]⟩, counter)

/-- Drain one row iterator (`it.Next` until `iterator.Done`), counting the
consumed rows in `counter` exactly as the inner loop does. -/
def processPage (env : Env) (udO udK : Bool) (st : RState) (page : List (List String)) :
    Except Unit (RState × Nat) :=
  page.foldlM (fun stc row => processRow env udO udK stc.1 stc.2 row) (st, 0)

inductive CycleErr where
  | fuelOut
  | queryErr (msg : String)
  | rowErr
deriving Repr, DecidableEq

/-- The literal `"Not found"` probed by `strings.Contains` in
`ReadGoogleRow`'s error handling. -/
def notFoundLit : String := "Not found"

/-- The outer `for` loop of `ReadGoogleRow` for one table cycle: fetch a
page; a job error containing "Not found" returns success immediately, any
other job error propagates; otherwise drain the page, and stop (lastRow)
exactly when the drained counter is below `CounterLimit`.  Returns the
final state and the length of every fetched page, in fetch order.  Fuel
bounds the number of outer iterations (the Go loop has no such bound; all
theorems are about runs that finish within their fuel). -/
def runCycle (env : Env) (udO udK : Bool) : Nat → RState → Except CycleErr (RState × List Nat)
  | 0, _ => Except.error CycleErr.fuelOut
  | fuel + 1, st =>
    match env.fetch st.offset st.firstSync with
    | Except.error msg =>
      if goContains msg notFoundLit then Except.ok (st, [])
      else Except.error (CycleErr.queryErr msg)
    | Except.ok page =>
      match processPage env udO udK st page with
      | Except.error _ => Except.error CycleErr.rowErr
      | Except.ok (st2, counter) =>
        if counter < env.counterLimit then Except.ok (st2, [page.length])
        else
          match runCycle env udO udK fuel st2 with
          | Except.ok (st3, sizes) => Except.ok (st3, page.length :: sizes)
          | Except.error e => Except.error e

/-- The observable result of `Source.Open` (connector lifecycle file):
restored position, channel capacities, effective polling interval and the
configuration error, if any.  `time.ParseDuration` and the BigQuery client
construction are external; the duration parser is a parameter, and client
construction happens after every field below is set, so it cannot affect
them. -/
structure OpenState where
  position : String
  recordsCap : Nat
  iteratorClosedCap : Nat
  pollingTime : Nat
  configErr : Option String
deriving Repr, DecidableEq

/-- Model of `Source.Open`: run `fetchPos`, create `s.records` with capacity 100 and
`s.iteratorClosed` with capacity 2, then parse the configured polling time
(an invalid duration is the lifecycle's fatal configuration error). -/
def Source.Open (parseDuration : String → Option Nat) (defaultPollingTime : Nat)
    (cfg : Config) (pos : List Char) : OpenState :=
  let position := fetchPos pos
  let recordsCap := 100
  let iteratorClosedCap := 2
  if 0 < cfg.pollingTime.length then
    match parseDuration cfg.pollingTime with
    | none => ⟨position, recordsCap, iteratorClosedCap, defaultPollingTime,
        some "invalid polling time duration provided"⟩
    | some d => ⟨position, recordsCap, iteratorClosedCap, d, none⟩
  else ⟨position, recordsCap, iteratorClosedCap, defaultPollingTime, none⟩

/-! ## Characterisation lemmas for the row loop -/

theorem processRow_ok (env : Env) (udO udK : Bool) (st : RState) (c : Nat)
    (row : List String) (st2 : RState) (c2 : Nat)
    (h : processRow env udO udK st c row = Except.ok (st2, c2)) :
    ∃ data key offset,
      (row.zip env.schema).foldlM
          (fun acc cell => processColumn env st.firstSync udO udK acc cell)
          (([] : List (String × String)), "", st.offset)
        = Except.ok (data, key, offset)
      ∧ st2.offset = offset ∧ st2.firstSync = false ∧ st2.position = offset
      ∧ st2.recordsCap = st.recordsCap
      ∧ st2.writes = st.writes ++ [offset]
      ∧ st2.consumed = st.consumed ++ [row]
      ∧ c2 = c + 1
      ∧ ((env.marshalPosition offset = none ∧ st2.emitted = st.emitted)
         ∨ (∃ bs, env.marshalPosition offset = some bs
              ∧ st2.emitted = st.emitted ++ [⟨data, some (env.gobEncode key), bs⟩])) := by
  unfold processRow at h
  cases hq : (row.zip env.schema).foldlM
      (fun acc cell => processColumn env st.firstSync udO udK acc cell)
      (([] : List (String × String)), "", st.offset) with
  | error e => rw [hq] at h; exact Except.noConfusion h
  | ok triple =>
    obtain ⟨data, key, offset⟩ := triple
    rw [hq] at h
    refine ⟨data, key, offset, rfl, ?_⟩
    dsimp only at h
    cases hm : env.marshalPosition offset with
    | none =>
      rw [hm] at h
      injection h with h1
      injection h1 with hst hc
      subst hst
      exact ⟨rfl, rfl, rfl, rfl, rfl, rfl, hc.symm ▸ rfl, Or.inl ⟨rfl, rfl⟩⟩
    | some bs =>
      rw [hm] at h
      injection h with h1
      injection h1 with hst hc
      subst hst
      exact ⟨rfl, rfl, rfl, rfl, rfl, rfl, hc.symm ▸ rfl, Or.inr ⟨bs, rfl, rfl⟩⟩

theorem exceptBind_ok {α β ε : Type} (a : α) (k : α → Except ε β) :
    (Except.ok a >>= k) = k a := rfl

theorem exceptBind_error {α β ε : Type} (e : ε) (k : α → Except ε β) :
    ((Except.error e : Except ε α) >>= k) = Except.error e := rfl

theorem processPage_fold (env : Env) (udO udK : Bool) (page : List (List String)) :
    ∀ st c0 st2 c,
      page.foldlM (fun stc row => processRow env udO udK stc.1 stc.2 row) (st, c0)
        = Except.ok (st2, c)
      → c = c0 + page.length ∧ st2.recordsCap = st.recordsCap := by
  induction page with
  | nil =>
    intro st c0 st2 c h
    simp only [List.foldlM_nil] at h
    injection h with h1
    injection h1 with h2 h3
    subst h2
    subst h3
    exact ⟨rfl, rfl⟩
  | cons row page ih =>
    intro st c0 st2 c h
    rw [List.foldlM_cons] at h
    cases hr : processRow env udO udK st c0 row with
    | error e => rw [hr, exceptBind_error] at h; exact Except.noConfusion h
    | ok p =>
      obtain ⟨st1, c1⟩ := p
      rw [hr, exceptBind_ok] at h
      obtain ⟨d, k, o, hfold, hoff, hfs2, hpos, hcap, hw, hcons, hc1, hdisj⟩ :=
        processRow_ok env udO udK st c0 row st1 c1 hr
      obtain ⟨hc, hcap2⟩ := ih st1 c1 st2 c h
      refine ⟨?_, ?_⟩
      · rw [hc, hc1, List.length_cons]; omega
      · rw [hcap2, hcap]

theorem processPage_counter_eq (env : Env) (udO udK : Bool) (st : RState)
    (page : List (List String)) (st2 : RState) (c : Nat)
    (h : processPage env udO udK st page = Except.ok (st2, c)) :
    c = page.length ∧ st2.recordsCap = st.recordsCap := by
  unfold processPage at h
  have h2 := processPage_fold env udO udK page st 0 st2 c h
  exact ⟨by omega, h2.2⟩

/-! ## Claim theorems -/

/-- C1: within one table read cycle, `ReadGoogleRow`'s paging loop (here
`runCycle`) stops exactly at the first page that yields strictly fewer rows
than `CounterLimit` (zero included): in an error-free run where the
warehouse honours the query LIMIT, at least one page is fetched, every
fetched page except the last has exactly `CounterLimit` rows (so a full
page always triggers one more fetch, whose result settles end-of-table),
and the last fetched page is strictly short. -/
theorem c1_page_boundary (env : Env) (udO udK : Bool) (fuel : Nat) (st st2 : RState)
    (sizes : List Nat)
    (hfetch : ∀ off fs, ∃ page, env.fetch off fs = Except.ok page)
    (hle : ∀ off fs page, env.fetch off fs = Except.ok page → page.length ≤ env.counterLimit)
    (hrun : runCycle env udO udK fuel st = Except.ok (st2, sizes)) :
    sizes ≠ []
    ∧ (∀ x ∈ sizes.dropLast, x = env.counterLimit)
    ∧ (∀ h : sizes ≠ [], sizes.getLast h < env.counterLimit) := by
  induction fuel generalizing st st2 sizes with
  | zero => exact Except.noConfusion hrun
  | succ n ih =>
    simp only [runCycle] at hrun
    obtain ⟨page, hp⟩ := hfetch st.offset st.firstSync
    rw [hp] at hrun
    dsimp only at hrun
    cases hpp : processPage env udO udK st page with
    | error e => rw [hpp] at hrun; exact Except.noConfusion hrun
    | ok p =>
      obtain ⟨stm, counter⟩ := p
      rw [hpp] at hrun
      dsimp only at hrun
      obtain ⟨hcnt, hcap⟩ := processPage_counter_eq env udO udK st page stm counter hpp
      by_cases hlt : counter < env.counterLimit
      · rw [if_pos hlt] at hrun
        injection hrun with h1
        injection h1 with h2 h3
        subst h3
        refine ⟨by simp, ?_, ?_⟩
        · intro x hx
          simp at hx
        · intro hne
          show [page.length].getLast hne < env.counterLimit
          simp only [List.getLast_singleton]
          omega
      · rw [if_neg hlt] at hrun
        cases hrec : runCycle env udO udK n stm with
        | error e => rw [hrec] at hrun; exact Except.noConfusion hrun
        | ok q =>
          obtain ⟨st3, sizes2⟩ := q
          rw [hrec] at hrun
          dsimp only at hrun
          injection hrun with h1
          injection h1 with h2 h3
          subst h2
          subst h3
          obtain ⟨hne2, hdrop2, hlast2⟩ := ih stm st3 sizes2 hrec
          have hcl : page.length = env.counterLimit := by
            have := hle st.offset st.firstSync page hp
            omega
          refine ⟨by simp, ?_, ?_⟩
          · intro x hx
            rw [List.dropLast_cons_of_ne_nil hne2] at hx
            rcases List.mem_cons.mp hx with hx | hx
            · rw [hx, hcl]
            · exact hdrop2 x hx
          · intro hne
            rw [List.getLast_cons hne2]
            exact hlast2 hne2

/-- Witness environment: one-column, one-row table read in counter mode
with page size 1; the position marshaller and gob encoder are trivial
stand-ins (they are environment parameters). -/
def w1Env : Env :=
  ⟨1, ⟨"sa", "p", "d", "t1", "", "", "", ""⟩, [("a", FieldType.integer)],
    fun off _ => Except.ok (((([["10"]] : List (List String))).drop
      (((goAtoi off).getD 0).toNat)).take 1),
    fun s => some s, fun _ => some [], fun _ => []⟩

theorem c1_page_boundary_witness :
    ([1, 0] : List Nat) ≠ []
    ∧ (∀ x ∈ ([1, 0] : List Nat).dropLast, x = w1Env.counterLimit)
    ∧ (∀ h : ([1, 0] : List Nat) ≠ [],
        ([1, 0] : List Nat).getLast h < w1Env.counterLimit) :=
  c1_page_boundary w1Env false false 3 ⟨"", true, "", 100, [], [], []⟩
    ⟨"1", false, "1", 100, ["1"], [["10"]], [⟨[("a", "10")], some [], []⟩]⟩ [1, 0]
    (fun _ _ => ⟨_, rfl⟩)
    (fun off fs page h => by
      injection h with h2
      rw [← h2]
      exact List.length_take_le 1 _)
    (by rfl)

/-- C2: with an increment column configured, `getRowIterator` builds
`SELECT * ... ORDER BY col LIMIT pageSize` on the first (snapshot) pass and
`SELECT * ... WHERE col > cursor ORDER BY col LIMIT pageSize` on every
later pass; and `getType`, which renders the cursor embedded there, leaves
the numeric field types (Integer/Float/Numeric) unquoted and wraps every
other type (temporal and string included) in single quotes. -/
theorem c2_query_construction (cfg : Config) (limit : Nat) (offset tableID : String)
    (hinc : 0 < cfg.incrementColNames.length) :
    getRowIteratorQuery cfg limit offset tableID true
        = "SELECT * FROM `" ++ cfg.projectID ++ "." ++ cfg.datasetID ++ "." ++ tableID
          ++ "` " ++ " ORDER BY " ++ cfg.incrementColNames ++ " LIMIT " ++ goItoaNat limit
    ∧ getRowIteratorQuery cfg limit offset tableID false
        = "SELECT * FROM `" ++ cfg.projectID ++ "." ++ cfg.datasetID ++ "." ++ tableID
          ++ "` WHERE " ++ cfg.incrementColNames ++ " > " ++ offset ++ " ORDER BY "
          ++ cfg.incrementColNames ++ " LIMIT " ++ goItoaNat limit
    ∧ (∀ t v, ((t = FieldType.integer ∨ t = FieldType.float ∨ t = FieldType.numeric) →
          getType t v = v)
        ∧ (¬ (t = FieldType.integer ∨ t = FieldType.float ∨ t = FieldType.numeric) →
          getType t v = sglQuote ++ v ++ sglQuote)) := by
  refine ⟨?_, ?_, ?_⟩
  · unfold getRowIteratorQuery
    rw [if_pos hinc, if_pos rfl]
  · unfold getRowIteratorQuery
    rw [if_pos hinc, if_neg (by decide : ¬ false = true)]
  · intro t v
    constructor
    · rintro (h | h | h) <;> subst h <;> rfl
    · intro h
      cases t
      · exact absurd (Or.inl rfl) h
      · exact absurd (Or.inr (Or.inl rfl)) h
      · exact absurd (Or.inr (Or.inr rfl)) h
      all_goals rfl

theorem c2_query_construction_witness :
    getRowIteratorQuery ⟨"sa", "p", "d", "t1", "", "", "inc", "pk"⟩ 2 "5" "t1" false
      = "SELECT * FROM `" ++ "p" ++ "." ++ "d" ++ "." ++ "t1"
        ++ "` WHERE " ++ "inc" ++ " > " ++ "5" ++ " ORDER BY " ++ "inc" ++ " LIMIT "
        ++ goItoaNat 2 :=
  (c2_query_construction ⟨"sa", "p", "d", "t1", "", "", "inc", "pk"⟩ 2 "5" "t1"
    (by decide)).2.1

/-- C5: `writePosition` stores the offset into `s.position` and returns its
JSON encoding; feeding those bytes to `fetchPos` (exactly what `Open` does
with the resume-position blob, which is byte-for-byte a per-record position
token) restores the same cursor value: the two sides use one encoding and
it round-trips. -/
theorem c5_position_roundtrip (offset : String) :
    (writePosition offset).1 = offset ∧ fetchPos (writePosition offset).2 = offset := by
  constructor
  · rfl
  · show fetchPos (goJsonMarshalString offset) = offset
    unfold fetchPos
    rw [goJsonUnmarshalString_marshal]

/-- C7: a `getRowIterator` failure whose message contains "Not found" makes
`ReadGoogleRow`'s loop return success immediately with the state untouched
(nothing produced for the table); any other query failure is returned to
the caller (and hence to the supervising tomb, which kills the run). -/
theorem c7_not_found_soft (env : Env) (udO udK : Bool) (fuel : Nat) (st : RState)
    (msg : String)
    (herr : env.fetch st.offset st.firstSync = Except.error msg) :
    (goContains msg notFoundLit = true →
      runCycle env udO udK (fuel + 1) st = Except.ok (st, []))
    ∧ (goContains msg notFoundLit = false →
      runCycle env udO udK (fuel + 1) st = Except.error (CycleErr.queryErr msg)) := by
  constructor
  · intro hc
    simp only [runCycle]
    rw [herr]
    dsimp only
    rw [if_pos hc]
  · intro hc
    simp only [runCycle]
    rw [herr]
    dsimp only
    rw [if_neg (by rw [hc]; exact Bool.false_ne_true)]

/-- C8 (code evaluated at the failing input): with a blank `TableIDs`
configuration, `getTables` reaches the logging call `err.Error()` while
`err` is still nil and panics with a nil pointer dereference, instead of
cleanly returning the intended `"table ID blank"` configuration error. -/
theorem c8_getTables_blank_panics :
    getTables ⟨"sa", "p", "d", "", "", "", "", ""⟩ = GetTablesResult.panicNilDeref := rfl

/-- C10: `Open` creates the record channel with capacity exactly 100 for
every configuration and resume blob (the literal in `Open`, set before any
failure point), and the read loop never changes the capacity it was given. -/
theorem c10_records_channel_capacity (pd : String → Option Nat) (dp : Nat) (cfg : Config)
    (pos : List Char) :
    (Source.Open pd dp cfg pos).recordsCap = 100
    ∧ (∀ env udO udK fuel st st2 sizes,
        runCycle env udO udK fuel st = Except.ok (st2, sizes)
        → st2.recordsCap = st.recordsCap) := by
  constructor
  · unfold Source.Open
    dsimp only
    split
    · split <;> rfl
    · rfl
  · intro env udO udK fuel
    induction fuel with
    | zero => intro st st2 sizes h; exact Except.noConfusion h
    | succ n ih =>
      intro st st2 sizes h
      simp only [runCycle] at h
      cases hf : env.fetch st.offset st.firstSync with
      | error msg =>
        rw [hf] at h
        dsimp only at h
        split at h
        · injection h with h1
          injection h1 with h2 h3
          rw [← h2]
        · exact Except.noConfusion h
      | ok page =>
        rw [hf] at h
        dsimp only at h
        cases hpp : processPage env udO udK st page with
        | error e => rw [hpp] at h; exact Except.noConfusion h
        | ok p =>
          obtain ⟨stm, counter⟩ := p
          rw [hpp] at h
          dsimp only at h
          have hcap := (processPage_counter_eq env udO udK st page stm counter hpp).2
          split at h
          · injection h with h1
            injection h1 with h2 h3
            rw [← h2]
            exact hcap
          · cases hrec : runCycle env udO udK n stm with
            | error e => rw [hrec] at h; exact Except.noConfusion h
            | ok q =>
              obtain ⟨st3, sizes2⟩ := q
              rw [hrec] at h
              dsimp only at h
              injection h with h1
              injection h1 with h2 h3
              rw [← h2]
              rw [ih stm st3 sizes2 hrec, hcap]

/-- Counter-mode environment with a two-column schema: one page of two
rows, then an empty page. -/
def c3Env : Env :=
  ⟨2, ⟨"sa", "p", "d", "t1", "", "", "", ""⟩,
    [("a", FieldType.integer), ("b", FieldType.integer)],
    fun off _ => if off = "" then Except.ok [["10", "20"], ["30", "40"]] else Except.ok [],
    fun s => some s, fun _ => some [], fun _ => []⟩

/-- C3 (code evaluated at the failing input): in counter mode over a table
with two columns, `calcOffset` runs once per column (it sits inside the
per-column loop), so after one full page of 2 rows with `CounterLimit = 2`
the cursor-store writes are "1" then "3" and the stored cursor ends at
"3"; one increment per consumed row, as the claim and the SQL `OFFSET` the
cursor feeds require, would give writes "1", "2" and final cursor "2". -/
theorem c3_per_column_increment :
    runCycle c3Env false false 3 ⟨"", true, "", 100, [], [], []⟩
      = Except.ok (⟨"3", false, "3", 100, ["1", "3"],
          [["10", "20"], ["30", "40"]],
          [⟨[("a", "10"), ("b", "20")], some [], []⟩,
           ⟨[("a", "30"), ("b", "40")], some [], []⟩]⟩, [2, 0]) := by rfl

/-- Initial reader state of a fresh snapshot run. -/
def wSt0 : RState := ⟨"", true, "", 100, [], [], []⟩

/-- Counter-mode environment whose position marshaller always fails,
exercising the `writePosition` error branch. -/
def c6Env : Env :=
  ⟨2, ⟨"sa", "p", "d", "t1", "", "", "", ""⟩, [("a", FieldType.integer)],
    fun off _ => if off = "" then Except.ok [["10"]] else Except.ok [],
    fun s => some s, fun _ => none, fun _ => []⟩

/-- C6 counterexample: with the marshaller failing on every row, the run
still updates the stored cursor (`position` ends at "1", written before
marshalling inside `writePosition`) and emits nothing (`emitted = []`,
because the error path `continue`s past the send) — the opposite of the
claim on both counts. -/
theorem c6_counterexample :
    runCycle c6Env false false 2 wSt0
      = Except.ok (⟨"1", false, "1", 100, ["1"], [["10"]], []⟩, [1]) := by rfl

/-- C6 (amended): if marshalling the position token for a row fails, the
failure is logged, the cursor store is nevertheless updated — `s.position`
already holds the new offset, since `writePosition` stores before
marshalling — and the row's record is NOT emitted (the `continue` skips
the channel send); the row still counts toward the page counter. -/
theorem c6_marshal_failure_amended (env : Env) (udO udK : Bool) (st : RState) (c : Nat)
    (row : List String) (st2 : RState) (c2 : Nat)
    (hok : processRow env udO udK st c row = Except.ok (st2, c2))
    (hfail : env.marshalPosition st2.offset = none) :
    st2.position = st2.offset ∧ st2.writes = st.writes ++ [st2.offset]
    ∧ st2.emitted = st.emitted ∧ c2 = c + 1 := by
  obtain ⟨d, k, o, hfold, hoff, hfs, hpos, hcap, hw, hcons, hc, hdisj⟩ :=
    processRow_ok env udO udK st c row st2 c2 hok
  rcases hdisj with ⟨hm, he⟩ | ⟨bs, hm, he⟩
  · exact ⟨by rw [hpos, hoff], by rw [hw, hoff], he, hc⟩
  · rw [hoff] at hfail
    rw [hm] at hfail
    exact Option.noConfusion hfail

/-- The state after the single marshal-failed row of `c6Env`. -/
def c6St1 : RState := ⟨"1", false, "1", 100, ["1"], [["10"]], []⟩

theorem c6_marshal_failure_amended_witness :
    c6St1.position = c6St1.offset ∧ c6St1.writes = wSt0.writes ++ [c6St1.offset]
    ∧ c6St1.emitted = wSt0.emitted ∧ 1 = 0 + 1 :=
  c6_marshal_failure_amended c6Env false false wSt0 0 ["10"] c6St1 1 (by rfl) rfl

theorem processColumn_key_false (env : Env) (fs udO : Bool)
    (acc : List (String × String) × String × String)
    (cell : String × String × FieldType)
    (d : List (String × String)) (k o : String)
    (h : processColumn env fs udO false acc cell = Except.ok (d, k, o)) :
    k = acc.2.1 := by
  obtain ⟨data, key, off⟩ := acc
  obtain ⟨r0, name, ftype⟩ := cell
  unfold processColumn at h
  dsimp only at h
  cases ht : (if ftype = FieldType.timestamp then env.formatTimestamp r0 else some r0) with
  | none => rw [ht] at h; exact Except.noConfusion h
  | some r =>
    rw [ht] at h
    dsimp only at h
    split at h
    · injection h with h1
      injection h1 with h2 h3
      injection h3 with h4 h5
      exact h4.symm
    · split at h
      · injection h with h1
        injection h1 with h2 h3
        injection h3 with h4 h5
        exact h4.symm
      · injection h with h1
        injection h1 with h2 h3
        injection h3 with h4 h5
        exact h4.symm

theorem foldCols_key_false (env : Env) (fs udO : Bool)
    (cells : List (String × String × FieldType)) :
    ∀ data0 key0 off0 d k o,
      cells.foldlM (fun acc cell => processColumn env fs udO false acc cell)
          (data0, key0, off0) = Except.ok (d, k, o)
      → k = key0 := by
  induction cells with
  | nil =>
    intro data0 key0 off0 d k o h
    simp only [List.foldlM_nil] at h
    injection h with h1
    injection h1 with h2 h3
    injection h3 with h4 h5
    exact h4.symm
  | cons cell cells ih =>
    intro data0 key0 off0 d k o h
    rw [List.foldlM_cons] at h
    cases hc : processColumn env fs udO false (data0, key0, off0) cell with
    | error e => rw [hc, exceptBind_error] at h; exact Except.noConfusion h
    | ok acc1 =>
      obtain ⟨d1, k1, o1⟩ := acc1
      rw [hc, exceptBind_ok] at h
      have hk1 : k1 = key0 := processColumn_key_false env fs udO (data0, key0, off0) cell d1 k1 o1 hc
      rw [← hk1]
      exact ih d1 k1 o1 d k o h

/-- C9 (amended): given the column loop's result for a row and a successful
position marshal, the emitted record always carries key bytes: the gob
encoding of the key string the loop computed (the rendered value of the
configured primary-key column).  When no primary-key column is configured
the key string is the empty string, so the record's key is the gob encoding
of "" — present, not absent. -/
theorem c9_key_bytes (env : Env) (udO udK : Bool) (st : RState) (c : Nat)
    (row : List String) (data : List (String × String)) (key offset : String)
    (bs : List Char)
    (hfold : (row.zip env.schema).foldlM
        (fun acc cell => processColumn env st.firstSync udO udK acc cell)
        (([] : List (String × String)), "", st.offset) = Except.ok (data, key, offset))
    (hm : env.marshalPosition offset = some bs) :
    processRow env udO udK st c row
      = Except.ok (⟨offset, false, offset, st.recordsCap, st.writes ++ [offset],
          st.consumed ++ [row],
          st.emitted ++ [⟨data, some (env.gobEncode key), bs⟩]⟩, c + 1)
    ∧ (udK = false → key = "") := by
  constructor
  · unfold processRow
    rw [hfold]
    dsimp only
    rw [hm]
  · intro hk
    subst hk
    exact foldCols_key_false env st.firstSync udO (row.zip env.schema) [] "" st.offset
      data key offset hfold

/-- Counter-mode environment with no primary-key column and a non-trivial
gob-encoding stand-in, to exhibit the key bytes of an emitted record. -/
def c9Env : Env :=
  ⟨2, ⟨"sa", "p", "d", "t1", "", "", "", ""⟩, [("a", FieldType.integer)],
    fun off _ => if off = "" then Except.ok [["10"]] else Except.ok [],
    fun s => some s, fun _ => some [], fun s => 3 :: s.data.map Char.toNat⟩

/-- C9 counterexample: with no primary-key column configured, the emitted
record's key is NOT absent: it is `some` of the gob encoding of the empty
string (the code unconditionally sets `Key: sdk.RawData(byteKey)`). -/
theorem c9_counterexample :
    runCycle c9Env false false 2 wSt0
      = Except.ok (⟨"1", false, "1", 100, ["1"], [["10"]],
          [⟨[("a", "10")], some (c9Env.gobEncode ""), []⟩]⟩, [1])
    ∧ some (c9Env.gobEncode "") ≠ none := by
  exact ⟨by rfl, by simp⟩

theorem c9_key_bytes_witness :
    processRow c9Env false false wSt0 0 ["10"]
      = Except.ok (⟨"1", false, "1", 100, wSt0.writes ++ ["1"],
          wSt0.consumed ++ [["10"]],
          wSt0.emitted ++ [⟨[("a", "10")], some (c9Env.gobEncode ""), []⟩]⟩, 0 + 1)
    ∧ (false = false → "" = "") :=
  c9_key_bytes c9Env false false wSt0 0 ["10"] [("a", "10")] "" "1" [] (by rfl) rfl

/-! ## Cursor monotonicity machinery -/

theorem calcOffset_false_err (off : String) (h : goAtoi off = none) :
    calcOffset false off = (off, true) := by
  unfold calcOffset
  dsimp only
  rw [if_neg (by decide : ¬ false = true)]
  rw [h]

/-- Environment whose job submission fails with a BigQuery "Not found"
message. -/
def c7aEnv : Env :=
  ⟨2, ⟨"sa", "p", "d", "t1", "", "", "", ""⟩, [("a", FieldType.integer)],
    fun _ _ => Except.error "googleapi: Error 404: Not found: Table p:d.t1",
    fun s => some s, fun _ => some [], fun _ => []⟩

/-- Environment whose job submission fails with an unrelated error. -/
def c7bEnv : Env :=
  ⟨2, ⟨"sa", "p", "d", "t1", "", "", "", ""⟩, [("a", FieldType.integer)],
    fun _ _ => Except.error "network boom",
    fun s => some s, fun _ => some [], fun _ => []⟩

theorem c7_not_found_soft_witness :
    runCycle c7aEnv false false 1 wSt0 = Except.ok (wSt0, [])
    ∧ runCycle c7bEnv false false 1 wSt0 = Except.error (CycleErr.queryErr "network boom") :=
  ⟨(c7_not_found_soft c7aEnv false false 0 wSt0
      "googleapi: Error 404: Not found: Table p:d.t1" rfl).1 (by decide),
   (c7_not_found_soft c7bEnv false false 0 wSt0 "network boom" rfl).2 (by decide)⟩

theorem c10_records_channel_capacity_witness :
    (Source.Open (fun _ => some 5) 7 ⟨"sa", "p", "d", "t1", "2s", "", "", ""⟩ []).recordsCap
        = 100
    ∧ (⟨"1", false, "1", 100, ["1"], [["10"]],
        [⟨[("a", "10")], some [], []⟩]⟩ : RState).recordsCap
      = (⟨"", true, "", 100, [], [], []⟩ : RState).recordsCap :=
  ⟨(c10_records_channel_capacity (fun _ => some 5) 7
      ⟨"sa", "p", "d", "t1", "2s", "", "", ""⟩ []).1,
   (c10_records_channel_capacity (fun _ => some 5) 7
      ⟨"sa", "p", "d", "t1", "2s", "", "", ""⟩ []).2
     w1Env false false 3 ⟨"", true, "", 100, [], [], []⟩
     ⟨"1", false, "1", 100, ["1"], [["10"]], [⟨[("a", "10")], some [], []⟩]⟩ [1, 0] (by rfl)⟩
